import Mathlib

/-!
Shallow embedding of the `completion` utility core
(`src/util/src/future/block_on.rs` and `src/util/src/lib.rs`).

The wake/park synchronization pair is modelled as explicit state passing:
the shared `AtomicBool` flag becomes a `Bool` field mutated by the two
atomic swap operations, the owning `Thread` handle becomes a thread id,
and the OS-level `thread::park`/`Thread::unpark` primitive is modelled by
suspension periods: `Parker.park` receives a list whose `i`-th entry is
the number of `waker_wake_by_ref` calls that land on the shared state
during the `i`-th OS suspension (an entry of `0` is a spurious resume).
The `Arc<WakerInner>` reference counting is modelled by a small heap of
reference-counted boxes indexed by the raw pointer value.
-/

namespace Completion

/-- Structure `WakerInner` from `block_on.rs`: the shared atomic `woken` flag plus the
handle to the sleeping (owning) thread, modelled as a thread id. -/
structure WakerInner where
  woken : Bool
  sleeping_thread : Nat
  deriving DecidableEq, Repr

/-- Function `waker_wake_by_ref`: atomically swap `woken` to `true`, reading the
previous value; if the previous value was `false`, unpark the owning
thread.  Returns the updated shared state and whether `unpark` was
called. -/
def waker_wake_by_ref (s : WakerInner) : WakerInner × Bool :=
  let prev := s.woken
  let s1 : WakerInner := { s with woken := true }
  if !prev then (s1, true) else (s1, false)

/-- Iterated wakes: `k` successive `waker_wake_by_ref` calls on the shared state; returns
the final state and the total number of `unpark` calls performed. -/
def wakeByRefIter : Nat → WakerInner → WakerInner × Nat
  | 0, s => (s, 0)
  | k + 1, s =>
    let (s1, u) := waker_wake_by_ref s
    let (s2, m) := wakeByRefIter k s1
    (s2, (if u then 1 else 0) + m)

/-- Method `Parker.park`: `while !self.inner.woken.swap(false, SeqCst) { thread::park(); }`.
The swap is one atomic step: read `woken`, set it to `false`.  If the read
value was `true` the loop exits; otherwise the thread suspends.  `resumes`
scripts the OS suspensions: its `i`-th entry is how many
`waker_wake_by_ref` calls hit the shared state during the `i`-th
suspension (`0` = spurious resume).  Returns the state after the final
swap and the number of OS suspensions, or `none` if the thread is still
blocked when the script runs out (no semantic wake ever arrives). -/
def Parker.park (s : WakerInner) (resumes : List Nat) : Option (WakerInner × Nat) :=
  if s.woken then
    some ({ s with woken := false }, 0)
  else
    match resumes with
    | [] => none
    | k :: rest =>
      match Parker.park (wakeByRefIter k { s with woken := false }).1 rest with
      | some (s', n) => some (s', n + 1)
      | none => none
termination_by resumes.length

/-- A reference-counted box holding a `WakerInner`, modelling one
`Arc<WakerInner>` allocation: `strong` is the strong reference count. -/
structure ArcBox where
  strong : Nat
  value : WakerInner
  deriving DecidableEq, Repr

/-- The heap of `Arc<WakerInner>` allocations; a raw pointer is an index. -/
def Heap := List ArcBox

/-- Update the box at pointer `p`, if allocated. -/
def Heap.upd (h : Heap) (p : Nat) (f : ArcBox → ArcBox) : Heap :=
  match List.get? h p with
  | some a => List.set h p (f a)
  | none => h

/-- Read the box at pointer `p`. -/
def Heap.read (h : Heap) (p : Nat) : Option ArcBox :=
  List.get? h p

/-- Function `waker_clone`: reconstruct the `Arc` from the raw pointer, clone it
(incrementing the strong count), forget both, and return a new `RawWaker`
carrying the *same* pointer.  Net effect: strong count at `p` goes up by
one; the returned waker points at `p`. -/
def waker_clone (h : Heap) (p : Nat) : Heap × Nat :=
  (h.upd p (fun a => { a with strong := a.strong + 1 }), p)

/-- Function `waker_drop`: reconstruct the `Arc` from the raw pointer and let it
drop, decrementing the strong count (the allocation is freed when the
count reaches zero). -/
def waker_drop (h : Heap) (p : Nat) : Heap :=
  h.upd p (fun a => { a with strong := a.strong - 1 })

/-- Function `waker_wake_by_ref` acting through a raw pointer into the heap:
dereference `p` and perform the swap-to-true / conditional-unpark on the
shared state.  Returns the heap and whether `unpark` was called. -/
def heap_wake_by_ref (h : Heap) (p : Nat) : Heap × Bool :=
  match h.read p with
  | some a =>
    let (v, u) := waker_wake_by_ref a.value
    (h.upd p (fun b => { b with value := v }), u)
  | none => (h, false)

/-- Function `waker_wake`: `waker_wake_by_ref(ptr)` followed by `waker_drop(ptr)`
(the wake consumes the caller's own reference). -/
def waker_wake (h : Heap) (p : Nat) : Heap × Bool :=
  let (h1, u) := heap_wake_by_ref h p
  (waker_drop h1 p, u)

/-- One poll outcome of a scripted completion future, as returned to the
`block_on` loop.  `pending wakeBeforePark` reports `Poll::Pending`; in the
test scenario each pending report is accompanied by exactly one wake of
the wake side from an arbitrary thread — `wakeBeforePark = true` when
that wake lands before the driver's `park()` call (flag already set),
`false` when it lands while the thread is suspended inside `park()`. -/
inductive PollR (α : Type) where
  | ready (v : α)
  | pending (wakeBeforePark : Bool)
  deriving DecidableEq, Repr

/-- The polling loop of `block_on`: poll the future; on `Poll::Ready`
return its output, on `Poll::Pending` call `parker.park()` and retry.
The future is scripted as the list of its successive poll outcomes; the
shared state of the `(Parker, Waker)` pair threads through.  Returns the
output, the pair state after the loop, and the number of `park()` calls
made, or `none` when the script is exhausted or the thread blocks
forever inside `park()`. -/
def block_on_loop {α : Type} (s : WakerInner) :
    List (PollR α) → Option (α × WakerInner × Nat)
  | [] => none
  | .ready v :: _ => some (v, s, 0)
  | .pending early :: rest =>
    let s1 := if early then (waker_wake_by_ref s).1 else s
    let resumes : List Nat := if early then [] else [1]
    match Parker.park s1 resumes with
    | some (s2, _) =>
      match block_on_loop s2 rest with
      | some (v, s', n) => some (v, s', n + 1)
      | none => none
    | none => none

/-- The `thread_local!` cache of `block_on`: one `(Parker, Waker)` pair
per thread (both halves share one `WakerInner`), inside a `RefCell`
whose borrow flag is `borrowed`. -/
structure ThreadCache where
  pair : WakerInner
  borrowed : Bool
  deriving DecidableEq, Repr

/-- Function `wake_pair`: allocate a fresh shared state with `woken` initialised
to `false` and the current thread as the sleeping thread. -/
def wake_pair (tid : Nat) : WakerInner :=
  { woken := false, sleeping_thread := tid }

/-- Function `block_on`: `cache.try_borrow_mut()` — if the thread-local pair is
not already borrowed, borrow it for the duration of the call (releasing
the borrow at the end, writing back the pair); if it is borrowed (a
reentrant call), allocate a fresh pair with `wake_pair()`, use it for
the whole call, and discard it, leaving the cache untouched.  Then run
the polling loop. -/
def block_on {α : Type} (tid : Nat) (tc : ThreadCache) (fut : List (PollR α)) :
    Option (α × ThreadCache) :=
  if tc.borrowed then
    match block_on_loop (wake_pair tid) fut with
    | some (v, _, _) => some (v, tc)
    | none => none
  else
    match block_on_loop tc.pair fut with
    | some (v, p', _) => some (v, { pair := p', borrowed := false })
    | none => none

/-- One poll outcome of a scripted outer future that may itself invoke a
nested, reentrant `block_on` on the same thread.  An `innerCall f` poll
runs `block_on` on the inner future `f` while the outer call still holds
the borrow of the thread-local cache, then reports `Poll::Pending` with
one wake delivered before the outer `park()`. -/
inductive OStep (α β : Type) where
  | ready (v : α)
  | pending (wakeBeforePark : Bool)
  | innerCall (f : List (PollR β))

/-- The polling loop of an outer `block_on` whose future can make nested
`block_on` calls.  `during` is the state of the thread-local cache while
the outer call is in flight (its borrow flag is set); nested calls go
through `block_on` with that cache.  Returns the outer output, the outer
pair state, the number of outer `park()` calls, and the list of values
returned by the nested calls in order. -/
def outer_loop {α β : Type} (tid : Nat) (during : ThreadCache) (s : WakerInner) :
    List (OStep α β) → Option (α × WakerInner × Nat × List β)
  | [] => none
  | .ready v :: _ => some (v, s, 0, [])
  | .pending early :: rest =>
    let s1 := if early then (waker_wake_by_ref s).1 else s
    let resumes : List Nat := if early then [] else [1]
    match Parker.park s1 resumes with
    | some (s2, _) =>
      match outer_loop tid during s2 rest with
      | some (v, s', n, ws) => some (v, s', n + 1, ws)
      | none => none
    | none => none
  | .innerCall f :: rest =>
    match block_on tid during f with
    | some (w, _) =>
      let s1 := (waker_wake_by_ref s).1
      match Parker.park s1 [] with
      | some (s2, _) =>
        match outer_loop tid during s2 rest with
        | some (v, s', n, ws) => some (v, s', n + 1, w :: ws)
        | none => none
      | none => none
    | none => none

/-- Variant of `block_on` for an outer future that may make nested calls: acquire
the pair exactly as `block_on` does (cached pair when the cache is free,
fresh pair when it is already borrowed), with the cache marked borrowed
while the outer loop runs. -/
def block_on_nested {α β : Type} (tid : Nat) (tc : ThreadCache)
    (steps : List (OStep α β)) : Option (α × ThreadCache × List β) :=
  if tc.borrowed then
    match outer_loop tid tc (wake_pair tid) steps with
    | some (v, _, _, ws) => some (v, tc, ws)
    | none => none
  else
    match outer_loop tid { pair := tc.pair, borrowed := true } tc.pair steps with
    | some (v, p', _, ws) => some (v, { pair := p', borrowed := false }, ws)
    | none => none

/-- A conventional future (or a completion future) over state type `σ`,
modelled by its poll transition: given the state, one `poll` call mutates
the state and returns `Poll::Ready v` or `Poll::Pending`.  `Poll` here is
`PollR` without the scenario annotation. -/
inductive Poll (α : Type) where
  | ready (v : α)
  | pending
  deriving DecidableEq, Repr

/-- The poll transition function of a future with state `σ`. -/
def PollFn (σ α : Type) : Type := σ → σ × Poll α

/-- The `poll_next` transition function of a stream with state `σ`:
`Poll::Ready (some item)`, `Poll::Ready none` (stream finished), or
`Poll::Pending`. -/
def PollNextFn (σ α : Type) : Type := σ → σ × Poll (Option α)

/-- The `size_hint` of a stream with state `σ`: `(lower, upper)`. -/
def SizeHintFn (σ : Type) : Type := σ → Nat × Option Nat

/-- Wrapper `MustComplete<T>` from `lib.rs`: wraps a conventional future or
stream and exposes it as a completion future/stream. -/
structure MustComplete (T : Type) where
  inner : T
  deriving DecidableEq, Repr

/-- Constructor `MustComplete::new`. -/
def MustComplete.new {T : Type} (inner : T) : MustComplete T :=
  { inner := inner }

/-- Method `MustComplete::into_inner` (unsafe: the value must still be polled
to completion). -/
def MustComplete.into_inner {T : Type} (m : MustComplete T) : T :=
  m.inner

/-- Impl `<MustComplete<T> as CompletionFuture>::poll`: delegate to the inner
future's `poll` through the pin projection. -/
def MustComplete.poll {σ α : Type} (fp : PollFn σ α) : PollFn (MustComplete σ) α :=
  fun m =>
    let (t, r) := fp m.inner
    ({ inner := t }, r)

/-- Impl `<MustComplete<T> as CompletionStream>::poll_next`: delegate to the
inner stream's `poll_next`. -/
def MustComplete.poll_next {σ α : Type} (fp : PollNextFn σ α) :
    PollNextFn (MustComplete σ) α :=
  fun m =>
    let (t, r) := fp m.inner
    ({ inner := t }, r)

/-- Impl `<MustComplete<T> as CompletionStream>::size_hint`: delegate to the
inner stream's `size_hint`. -/
def MustComplete.size_hint {σ : Type} (sh : SizeHintFn σ) :
    SizeHintFn (MustComplete σ) :=
  fun m => sh m.inner

/-- Wrapper `AssertCompletes<T>` from `lib.rs`: wraps a completion future or
stream and exposes it through the ordinary `Future`/`Stream` interface
(construction is unsafe; the wrapper itself is pure delegation). -/
structure AssertCompletes (T : Type) where
  inner : T
  deriving DecidableEq, Repr

/-- Constructor `AssertCompletes::new` (unsafe: once polled, must be polled to
completion). -/
def AssertCompletes.new {T : Type} (inner : T) : AssertCompletes T :=
  { inner := inner }

/-- Method `AssertCompletes::into_inner`. -/
def AssertCompletes.into_inner {T : Type} (a : AssertCompletes T) : T :=
  a.inner

/-- Impl `<AssertCompletes<T> as Future>::poll` (and identically
`<AssertCompletes<T> as CompletionFuture>::poll`): delegate to the inner
completion future's `poll`. -/
def AssertCompletes.poll {σ α : Type} (fp : PollFn σ α) :
    PollFn (AssertCompletes σ) α :=
  fun a =>
    let (t, r) := fp a.inner
    ({ inner := t }, r)

/-- Impl `<AssertCompletes<T> as Stream>::poll_next` (and identically
`<AssertCompletes<T> as CompletionStream>::poll_next`): delegate to the
inner completion stream's `poll_next`. -/
def AssertCompletes.poll_next {σ α : Type} (fp : PollNextFn σ α) :
    PollNextFn (AssertCompletes σ) α :=
  fun a =>
    let (t, r) := fp a.inner
    ({ inner := t }, r)

/-- Impl `<AssertCompletes<T> as Stream>::size_hint` (and identically the
`CompletionStream` one): delegate to the inner stream's `size_hint`. -/
def AssertCompletes.size_hint {σ : Type} (sh : SizeHintFn σ) :
    SizeHintFn (AssertCompletes σ) :=
  fun a => sh a.inner

/-- The observable trace of `n` successive `poll` calls on a future:
the list of poll results, and the state after those calls. -/
def pollTrace {σ α : Type} (fp : PollFn σ α) (s : σ) : Nat → List (Poll α) × σ
  | 0 => ([], s)
  | n + 1 =>
    let (s1, r) := fp s
    let (rs, sf) := pollTrace fp s1 n
    (r :: rs, sf)

/-- The observable trace of `n` successive `poll_next` calls on a
stream: the list of results, the `size_hint` observed before each call,
and the state after those calls. -/
def streamTrace {σ α : Type} (fp : PollNextFn σ α) (sh : SizeHintFn σ) (s : σ) :
    Nat → List (Poll (Option α) × (Nat × Option Nat)) × σ
  | 0 => ([], s)
  | n + 1 =>
    let hint := sh s
    let (s1, r) := fp s
    let (rs, sf) := streamTrace fp sh s1 n
    ((r, hint) :: rs, sf)

/-! Helper lemmas -/

/-- Once the flag is `true`, further `waker_wake_by_ref` calls leave it
`true` and perform no further `unpark`. -/
theorem wakeByRefIter_already_woken (k : Nat) (t : Nat) :
    wakeByRefIter k { woken := true, sleeping_thread := t } =
      ({ woken := true, sleeping_thread := t }, 0) := by
  induction k with
  | zero => rfl
  | succ k ih => simp [wakeByRefIter, waker_wake_by_ref, ih]

/-- Lemma: `park` on a state whose flag is set returns at once: the swap reads
`true`, resets the flag, and no OS suspension happens. -/
theorem park_of_woken (s : WakerInner) (resumes : List Nat) (h : s.woken = true) :
    Parker.park s resumes = some ({ s with woken := false }, 0) := by
  unfold Parker.park
  simp [h]

/-- Lemma: `park` on a state whose flag is clear, with the first suspension
seeing `k` wake calls: the thread suspends once and then re-runs the
swap-check on the resulting state. -/
theorem park_of_not_woken (s : WakerInner) (k : Nat) (rest : List Nat)
    (h : s.woken = false) :
    Parker.park s (k :: rest) =
      (Parker.park (wakeByRefIter k { s with woken := false }).1 rest).map
        (fun p => (p.1, p.2 + 1)) := by
  rw [Parker.park]
  simp [h]
  cases Parker.park (wakeByRefIter k { s with woken := false }).1 rest with
  | none => rfl
  | some p => rfl

/-- Lemma: `park` never returns while the flag is clear and only spurious
resumes arrive: with no semantic wake the thread stays blocked. -/
theorem park_spurious_blocked (s : WakerInner) (resumes : List Nat)
    (h : s.woken = false) (hsp : ∀ k ∈ resumes, k = 0) :
    Parker.park s resumes = none := by
  induction resumes with
  | nil => rw [Parker.park]; simp [h]
  | cons k rest ih =>
    have hk : k = 0 := hsp k (List.mem_cons_self k rest)
    rw [Parker.park]
    simp only [h, Bool.false_eq_true, if_false]
    have hs : ({ s with woken := false } : WakerInner) = s := by
      cases s; simp_all
    rw [hk, hs]
    have : wakeByRefIter 0 s = (s, 0) := rfl
    rw [this]
    rw [ih (fun j hj => hsp j (List.mem_cons_of_mem k hj))]

/-- If `park` returns at all from a clear flag, it suspended at least
once. -/
theorem park_not_woken_sleeps (s : WakerInner) (resumes : List Nat)
    (s' : WakerInner) (n : Nat) (h : s.woken = false)
    (hr : Parker.park s resumes = some (s', n)) : 1 ≤ n := by
  cases resumes with
  | nil => rw [Parker.park] at hr; simp [h] at hr
  | cons k rest =>
    rw [park_of_not_woken s k rest h] at hr
    cases hp : Parker.park (wakeByRefIter k { s with woken := false }).1 rest with
    | none => rw [hp] at hr; simp at hr
    | some p =>
      rw [hp] at hr
      simp at hr
      omega

/-- Lemma: `waker_wake_by_ref` in closed form: the flag is set, and `unpark`
is called exactly when the previous value was `false`. -/
theorem waker_wake_by_ref_eq (s : WakerInner) :
    waker_wake_by_ref s = ({ s with woken := true }, !s.woken) := by
  unfold waker_wake_by_ref
  cases hw : s.woken <;> simp [hw]

/-- A successful read means the pointer is in range. -/
theorem read_lt (h : Heap) (p : Nat) (a : ArcBox)
    (ha : List.get? h p = some a) : p < List.length h := by
  by_contra hge
  rw [List.get?_eq_none.mpr (Nat.le_of_not_lt hge)] at ha
  exact Option.noConfusion ha

/-- Lemma: `Heap.upd` in closed form at an allocated pointer. -/
theorem Heap.upd_eq (h : Heap) (p : Nat) (f : ArcBox → ArcBox) (a : ArcBox)
    (ha : List.get? h p = some a) : Heap.upd h p f = List.set h p (f a) := by
  unfold Heap.upd
  rw [show List.get? h p = some a from ha]

/-- Lemma: `heap_wake_by_ref` in closed form at an allocated pointer. -/
theorem heap_wake_by_ref_eq (h : Heap) (p : Nat) (a : ArcBox)
    (ha : List.get? h p = some a) :
    heap_wake_by_ref h p =
      (List.set h p { strong := a.strong,
                      value := { a.value with woken := true } },
       !a.value.woken) := by
  unfold heap_wake_by_ref
  rw [show Heap.read h p = some a from ha]
  dsimp only
  rw [waker_wake_by_ref_eq]
  dsimp only
  rw [Heap.upd_eq h p _ a ha]

/-- Lemma: `waker_wake` in closed form at an allocated pointer: flag set,
strong count decremented by one, `unpark` exactly when the previous flag
value was `false`. -/
theorem waker_wake_eq (h : Heap) (p : Nat) (a : ArcBox)
    (ha : List.get? h p = some a) :
    waker_wake h p =
      (List.set h p { strong := a.strong - 1,
                      value := { a.value with woken := true } },
       !a.value.woken) := by
  unfold waker_wake waker_drop
  rw [heap_wake_by_ref_eq h p a ha]
  dsimp only
  rw [Heap.upd_eq _ p _ _
    (List.get?_set_eq_of_lt _ (by simpa using read_lt h p a ha)),
    List.set_set]

/-! Claim C1 -/

/-- C1: a `wake()`/`wake_by_ref()` that happens-before the next `park()`
is never lost.  First conjunct: after any `waker_wake_by_ref`, the
subsequent `park()` observes the flag set and returns immediately — zero
OS suspensions — whatever the suspension script would have offered.
Second conjunct: the same through a full `wake()` (`waker_wake`) on the
heap: the shared state it leaves behind makes the next `park()` return
immediately. -/
theorem wake_happens_before_park_not_lost :
    (∀ (s : WakerInner) (resumes : List Nat),
      Parker.park (waker_wake_by_ref s).1 resumes =
        some ({ s with woken := false }, 0)) ∧
    (∀ (h : Heap) (p : Nat) (a : ArcBox), h.read p = some a →
      ∃ b : ArcBox, (waker_wake h p).1.read p = some b ∧
        ∀ resumes : List Nat,
          Parker.park b.value resumes =
            some ({ b.value with woken := false }, 0)) := by
  constructor
  · intro s resumes
    rw [show (waker_wake_by_ref s).1 = { s with woken := true } by
        rw [waker_wake_by_ref_eq],
      park_of_woken _ _ rfl]
  · intro h p a ha
    have ha' : List.get? h p = some a := ha
    refine ⟨{ strong := a.strong - 1,
              value := { a.value with woken := true } }, ?_, ?_⟩
    · show List.get? (waker_wake h p).1 p = _
      rw [waker_wake_eq h p a ha']
      exact List.get?_set_eq_of_lt _ (by simpa using read_lt h p a ha')
    · intro resumes
      exact park_of_woken _ _ rfl

/-- Witness for C1 at concrete inputs: after a `wake_by_ref` on a clear
flag, `park` returns with zero suspensions; after a full `wake()`
through the heap, the shared state it leaves behind makes `park` return
with zero suspensions. -/
theorem wake_happens_before_park_not_lost_witness :
    Parker.park (waker_wake_by_ref { woken := false, sleeping_thread := 7 }).1 [0] =
      some ({ woken := false, sleeping_thread := 7 }, 0) ∧
    Parker.park { woken := true, sleeping_thread := 3 } [] =
      some ({ woken := false, sleeping_thread := 3 }, 0) := by
  constructor
  · exact wake_happens_before_park_not_lost.1
      { woken := false, sleeping_thread := 7 } [0]
  · obtain ⟨b, hb, hpark⟩ := wake_happens_before_park_not_lost.2
      [{ strong := 2, value := { woken := false, sleeping_thread := 3 } }] 0
      { strong := 2, value := { woken := false, sleeping_thread := 3 } } rfl
    have hbv : Heap.read
        (waker_wake
          [{ strong := 2, value := { woken := false, sleeping_thread := 3 } }] 0).1 0 =
        some { strong := 1, value := { woken := true, sleeping_thread := 3 } } := by
      decide
    rw [hbv] at hb
    have hbe : b = { strong := 1, value := { woken := true, sleeping_thread := 3 } } :=
      (Option.some.inj hb).symm
    have hp := hpark []
    rw [hbe] at hp
    simpa using hp

/-! Claim C2 -/

/-- C2: `park()` is the atomic swap-to-false-and-check loop.  First
conjunct: when the swap reads `true` (a wake already happened), `park`
returns immediately with the flag reset and zero OS suspensions.  Second
conjunct: when the swap reads `false`, the thread suspends once (the
suspension seeing `k` wake calls) and then retries the swap-check on
the resulting state.  Third conjunct: spurious OS resumes with the flag
still `false` never cause `park` to return — with no semantic wake it
stays blocked. -/
theorem park_swap_check_loop :
    (∀ (s : WakerInner) (resumes : List Nat), s.woken = true →
      Parker.park s resumes = some ({ s with woken := false }, 0)) ∧
    (∀ (s : WakerInner) (k : Nat) (rest : List Nat), s.woken = false →
      Parker.park s (k :: rest) =
        (Parker.park (wakeByRefIter k { s with woken := false }).1 rest).map
          (fun p => (p.1, p.2 + 1))) ∧
    (∀ (s : WakerInner) (resumes : List Nat), s.woken = false →
      (∀ k ∈ resumes, k = 0) → Parker.park s resumes = none) :=
  ⟨fun s r h => park_of_woken s r h,
   fun s k rest h => park_of_not_woken s k rest h,
   fun s r h hsp => park_spurious_blocked s r h hsp⟩

/-- Witness for C2 at concrete inputs: a parked-after-wake state returns
at once, and two spurious resumes leave the thread blocked. -/
theorem park_swap_check_loop_witness :
    Parker.park { woken := true, sleeping_thread := 7 } [] =
      some ({ woken := false, sleeping_thread := 7 }, 0) ∧
    Parker.park { woken := false, sleeping_thread := 7 } [0, 0] = none :=
  ⟨park_swap_check_loop.1 { woken := true, sleeping_thread := 7 } [] rfl,
   park_swap_check_loop.2.2 { woken := false, sleeping_thread := 7 } [0, 0]
     rfl (by decide)⟩

/-! Claim C3 -/

/-- C3: `wake_by_ref()` swaps the flag to `true` and unparks the owner
exactly when the previous value was `false`; `wake()` is
`wake_by_ref()` followed by releasing the caller's own reference.
First conjunct: the swap/unpark behaviour of `waker_wake_by_ref` on the
shared state.  Second conjunct: `waker_wake` decomposes as
`waker_wake_by_ref` followed by `waker_drop` on the same pointer.
Third conjunct: the net heap effect of `wake()` — flag set, strong
count down one, unpark iff the flag was previously clear. -/
theorem wake_swaps_and_unparks_iff_unwoken :
    (∀ s : WakerInner,
      (waker_wake_by_ref s).1 = { s with woken := true } ∧
      ((waker_wake_by_ref s).2 = true ↔ s.woken = false)) ∧
    (∀ (h : Heap) (p : Nat),
      waker_wake h p =
        (waker_drop (heap_wake_by_ref h p).1 p, (heap_wake_by_ref h p).2)) ∧
    (∀ (h : Heap) (p : Nat) (a : ArcBox), List.get? h p = some a →
      waker_wake h p =
        (List.set h p { strong := a.strong - 1,
                        value := { a.value with woken := true } },
         !a.value.woken)) := by
  refine ⟨fun s => ?_, fun h p => rfl, fun h p a ha => waker_wake_eq h p a ha⟩
  rw [waker_wake_by_ref_eq]
  cases hw : s.woken <;> simp [hw]

/-- Witness for C3 at a concrete heap: one allocation at pointer 0 with
strong count 2 and a clear flag; `wake()` sets the flag, drops the count
to 1, and unparks. -/
theorem wake_swaps_and_unparks_iff_unwoken_witness :
    waker_wake [{ strong := 2, value := { woken := false, sleeping_thread := 3 } }] 0 =
      ([{ strong := 1, value := { woken := true, sleeping_thread := 3 } }], true) := by
  have := wake_swaps_and_unparks_iff_unwoken.2.2
    [{ strong := 2, value := { woken := false, sleeping_thread := 3 } }] 0
    { strong := 2, value := { woken := false, sleeping_thread := 3 } } rfl
  simpa using this

/-! Claim C4 -/

/-- C4: `K ≥ 1` wake calls between two consecutive `park()` calls
coalesce.  First conjunct: starting from a clear flag, `K` successive
`waker_wake_by_ref` calls set the flag and unpark the owner exactly
once.  Second conjunct: the next `park()` consumes that single pending
wake and returns immediately (zero OS suspensions).  Third and fourth
conjuncts: a further `park()` with no intervening wake must sleep — it
blocks when no wake ever arrives, and whenever it does return it
suspended at least once. -/
theorem wakes_between_parks_coalesce (t K : Nat) (hK : 1 ≤ K) :
    wakeByRefIter K { woken := false, sleeping_thread := t } =
      ({ woken := true, sleeping_thread := t }, 1) ∧
    (∀ resumes : List Nat,
      Parker.park (wakeByRefIter K { woken := false, sleeping_thread := t }).1
          resumes =
        some ({ woken := false, sleeping_thread := t }, 0)) ∧
    Parker.park { woken := false, sleeping_thread := t } [] = none ∧
    (∀ (resumes : List Nat) (s' : WakerInner) (n : Nat),
      Parker.park { woken := false, sleeping_thread := t } resumes =
        some (s', n) → 1 ≤ n) := by
  obtain ⟨k, rfl⟩ : ∃ k, K = k + 1 := ⟨K - 1, by omega⟩
  have hiter : wakeByRefIter (k + 1) { woken := false, sleeping_thread := t } =
      ({ woken := true, sleeping_thread := t }, 1) := by
    rw [wakeByRefIter, waker_wake_by_ref_eq]
    simp [wakeByRefIter_already_woken]
  refine ⟨hiter, fun resumes => ?_, ?_, fun r s' n hr =>
    park_not_woken_sleeps _ r s' n rfl hr⟩
  · rw [hiter]
    exact park_of_woken _ _ rfl
  · exact park_spurious_blocked _ [] rfl (by simp)

/-- Witness for C4 at `K = 3`: three wakes produce one unpark, the next
`park` returns immediately, and a `park` after that blocks. -/
theorem wakes_between_parks_coalesce_witness :
    wakeByRefIter 3 { woken := false, sleeping_thread := 7 } =
      ({ woken := true, sleeping_thread := 7 }, 1) ∧
    Parker.park (wakeByRefIter 3 { woken := false, sleeping_thread := 7 }).1 [] =
      some ({ woken := false, sleeping_thread := 7 }, 0) ∧
    Parker.park { woken := false, sleeping_thread := 7 } [] = none :=
  ⟨(wakes_between_parks_coalesce 7 3 (by decide)).1,
   (wakes_between_parks_coalesce 7 3 (by decide)).2.1 [],
   (wakes_between_parks_coalesce 7 3 (by decide)).2.2.1⟩

/-! Claim C5 -/

/-- Lemma: `park` on a fresh-style pair state with one wake landing during the
single suspension: one OS suspension, then return with the flag clear. -/
theorem park_one_late_wake (t : Nat) :
    Parker.park { woken := false, sleeping_thread := t } [1] =
      some ({ woken := false, sleeping_thread := t }, 1) := by
  rw [park_of_not_woken _ 1 [] rfl]
  have h1 : wakeByRefIter 1
      ({ woken := false, sleeping_thread := t } : WakerInner) =
      ({ woken := true, sleeping_thread := t }, 1) := by
    rw [wakeByRefIter, waker_wake_by_ref_eq]
    simp [wakeByRefIter]
  simp only [show ({ woken := false, sleeping_thread := t } : WakerInner) =
    { woken := false, sleeping_thread := t } from rfl]
  rw [show (wakeByRefIter 1 { woken := false, sleeping_thread := t }).1 =
      { woken := true, sleeping_thread := t } by rw [h1]]
  rw [park_of_woken _ _ rfl]
  rfl

/-- C5: the `block_on` polling loop.  First conjunct: an operation that
is `Poll::Ready` on its first poll makes the loop return its value with
zero `park()` calls and the pair untouched.  Second conjunct: an
operation that reports `Poll::Pending` exactly `bs.length` times before
completing — each pending accompanied by one wake of the wake side,
landing either before the driver's `park()` (`true` entry) or during
the suspension (`false` entry) — makes the loop return the final value
with exactly `bs.length` `park()` calls (hence at most `N = bs.length`),
the flag clear again afterwards. -/
theorem block_on_ready_and_pending_counts :
    (∀ (α : Type) (s : WakerInner) (v : α) (rest : List (PollR α)),
      block_on_loop s (PollR.ready v :: rest) = some (v, s, 0)) ∧
    (∀ (α : Type) (t : Nat) (v : α) (bs : List Bool),
      block_on_loop { woken := false, sleeping_thread := t }
          (bs.map PollR.pending ++ [PollR.ready v]) =
        some (v, { woken := false, sleeping_thread := t }, bs.length)) := by
  constructor
  · intro α s v rest
    rfl
  · intro α t v bs
    induction bs with
    | nil => rfl
    | cons b rest ih =>
      cases b with
      | true =>
        simp only [List.map_cons, List.cons_append, block_on_loop,
          waker_wake_by_ref_eq, if_true]
        rw [park_of_woken _ _ rfl]
        simp [ih]
      | false =>
        simp only [List.map_cons, List.cons_append, block_on_loop,
          Bool.false_eq_true, if_false]
        rw [park_one_late_wake]
        simp [ih]

/-! Claim C6 -/

/-- One pending poll (with its wake, landing before or during `park`)
at the front of an outer script: one more `park()` call, the pair back
at the clear flag, everything else unchanged. -/
theorem outer_loop_pending_cons {α β : Type} (tid : Nat) (during : ThreadCache)
    (t : Nat) (b : Bool) (rest : List (OStep α β)) :
    outer_loop tid during { woken := false, sleeping_thread := t }
        (OStep.pending b :: rest) =
      (outer_loop tid during { woken := false, sleeping_thread := t } rest).map
        (fun r => (r.1, r.2.1, r.2.2.1 + 1, r.2.2.2)) := by
  cases b with
  | true =>
    simp only [outer_loop, waker_wake_by_ref_eq, if_true]
    rw [park_of_woken _ _ rfl]
    cases ho : outer_loop tid during { woken := false, sleeping_thread := t }
        rest with
    | none => simp [ho]
    | some r => simp [ho]
  | false =>
    simp only [outer_loop, Bool.false_eq_true, if_false]
    rw [park_one_late_wake]
    cases ho : outer_loop tid during { woken := false, sleeping_thread := t }
        rest with
    | none => simp [ho]
    | some r => simp [ho]

/-- Prepending `bs.length` pending polls (each with its wake) in front
of an outer script adds `bs.length` `park()` calls and changes nothing
else, the pair returning to the clear flag before the rest runs. -/
theorem outer_loop_pendings {α β : Type} (tid : Nat) (during : ThreadCache)
    (t : Nat) (bs : List Bool) (rest : List (OStep α β))
    (v : α) (s' : WakerInner) (n : Nat) (ws : List β)
    (h : outer_loop tid during { woken := false, sleeping_thread := t } rest =
      some (v, s', n, ws)) :
    outer_loop tid during { woken := false, sleeping_thread := t }
        (bs.map OStep.pending ++ rest) =
      some (v, s', n + bs.length, ws) := by
  induction bs with
  | nil => simpa using h
  | cons b bs ih =>
    rw [List.map_cons, List.cons_append, outer_loop_pending_cons, ih]
    simp [Nat.add_comm, Nat.add_assoc, Nat.add_left_comm]

/-- C6: reentrant `block_on` calls.  First conjunct: a nested call made
while the thread-local cache is borrowed runs its whole polling loop on
the freshly allocated pair `wake_pair tid`, returns that loop's value,
and leaves the cache — its `woken` flag and owning-thread handle —
exactly as it was.  Second conjunct: in the outer loop, a poll that
performs a nested call behaves on the outer pair exactly like a plain
pending poll, only additionally recording the nested call's value: the
outer pair's evolution and park count are unchanged by the inner call.
Third conjunct: an end-to-end nested scenario — outer call on a free
cache, `bs.length` pending polls, one poll making a nested call, then
completion — returns the outer value, the inner value, and restores the
cache to its original pair with the borrow released. -/
theorem reentrant_block_on_fresh_pair :
    (∀ (β : Type) (tid : Nat) (p : WakerInner) (f : List (PollR β))
        (v : β) (s : WakerInner) (n : Nat),
      block_on_loop (wake_pair tid) f = some (v, s, n) →
      block_on tid { pair := p, borrowed := true } f =
        some (v, { pair := p, borrowed := true })) ∧
    (∀ (α β : Type) (tid : Nat) (during : ThreadCache) (s : WakerInner)
        (f : List (PollR β)) (w : β) (tc2 : ThreadCache)
        (rest : List (OStep α β)),
      block_on tid during f = some (w, tc2) →
      outer_loop tid during s (OStep.innerCall f :: rest) =
        Option.map (fun r => (r.1, r.2.1, r.2.2.1, w :: r.2.2.2))
          (outer_loop tid during s (OStep.pending true :: rest))) ∧
    (∀ (α β : Type) (tid : Nat) (bs : List Bool) (f : List (PollR β))
        (vI : β) (sI : WakerInner) (nI : Nat) (v : α),
      block_on_loop (wake_pair tid) f = some (vI, sI, nI) →
      block_on_nested tid { pair := wake_pair tid, borrowed := false }
          (bs.map OStep.pending ++ [OStep.innerCall f, OStep.ready v]) =
        some (v, { pair := wake_pair tid, borrowed := false }, [vI])) := by
  have hinner : ∀ (β : Type) (tid : Nat) (p : WakerInner) (f : List (PollR β))
      (v : β) (s : WakerInner) (n : Nat),
      block_on_loop (wake_pair tid) f = some (v, s, n) →
      block_on tid { pair := p, borrowed := true } f =
        some (v, { pair := p, borrowed := true }) := by
    intro β tid p f v s n hf
    unfold block_on
    simp only [if_true]
    rw [hf]
  refine ⟨hinner, ?_, ?_⟩
  · intro α β tid during s f w tc2 rest h
    simp only [outer_loop, waker_wake_by_ref_eq, if_true]
    rw [h]
    cases hp : Parker.park ({ s with woken := true } : WakerInner) [] with
    | none => rfl
    | some p2 =>
      cases ho : outer_loop tid during p2.1 rest with
      | none => simp [ho]
      | some r => simp [ho]
  · intro α β tid bs f vI sI nI v hf
    have hstep : outer_loop tid { pair := wake_pair tid, borrowed := true }
        { woken := false, sleeping_thread := tid }
        [OStep.innerCall f, OStep.ready v] =
        some (v, { woken := false, sleeping_thread := tid }, 1, [vI]) := by
      simp only [outer_loop]
      rw [hinner β tid (wake_pair tid) f vI sI nI hf]
      simp only [waker_wake_by_ref_eq]
      rw [park_of_woken _ _ rfl]
    have hmain := outer_loop_pendings tid
      { pair := wake_pair tid, borrowed := true } tid bs
      [OStep.innerCall f, OStep.ready v] v
      { woken := false, sleeping_thread := tid } 1 [vI] hstep
    unfold block_on_nested
    rw [if_neg (by simp)]
    rw [show (wake_pair tid : WakerInner) =
      { woken := false, sleeping_thread := tid } from rfl] at hmain ⊢
    dsimp only
    rw [hmain]

/-- Witness for C6 at concrete inputs: a nested call on a borrowed
cache with a woken cached pair leaves that pair untouched and returns
the inner value; an outer call with one pending poll and one nested
call returns both values and restores its cache. -/
theorem reentrant_block_on_fresh_pair_witness :
    block_on 0 { pair := { woken := true, sleeping_thread := 5 }, borrowed := true }
        [PollR.ready 9] =
      some (9, { pair := { woken := true, sleeping_thread := 5 }, borrowed := true }) ∧
    block_on_nested 0 { pair := wake_pair 0, borrowed := false }
        [OStep.pending true, OStep.innerCall [PollR.ready 9], OStep.ready 7] =
      some (7, { pair := wake_pair 0, borrowed := false }, [9]) :=
  ⟨reentrant_block_on_fresh_pair.1 Nat 0 { woken := true, sleeping_thread := 5 }
      [PollR.ready 9] 9 (wake_pair 0) 0 rfl,
   reentrant_block_on_fresh_pair.2.2 Nat Nat 0 [true] [PollR.ready 9] 9
      (wake_pair 0) 0 7 rfl⟩

/-! Claim C7 -/

/-- C7: `MustComplete` is pure pass-through delegation.  First conjunct
(single-value shape): the trace of any number of `poll` calls on the
wrapped future is the same list of poll results as polling the
unwrapped future directly, and the wrapper's state is the wrap of the
inner state throughout.  Second conjunct (multi-value shape): the trace
of `poll_next` calls, with the `size_hint` observed before each call,
is identical through the wrapper, the wrapper's `size_hint` being the
inner stream's `size_hint` at every step. -/
theorem mustcomplete_polls_as_inner :
    (∀ (σ α : Type) (fp : PollFn σ α) (s : σ) (n : Nat),
      pollTrace (MustComplete.poll fp) (MustComplete.new s) n =
        ((pollTrace fp s n).1, MustComplete.new (pollTrace fp s n).2)) ∧
    (∀ (σ α : Type) (fp : PollNextFn σ α) (sh : SizeHintFn σ) (s : σ) (n : Nat),
      streamTrace (MustComplete.poll_next fp) (MustComplete.size_hint sh)
          (MustComplete.new s) n =
        ((streamTrace fp sh s n).1,
         MustComplete.new (streamTrace fp sh s n).2)) := by
  constructor
  · intro σ α fp s n
    induction n generalizing s with
    | zero => rfl
    | succ n ih =>
      have ih' := ih (fp s).1
      simp only [MustComplete.new] at ih'
      simp only [pollTrace, MustComplete.poll, MustComplete.new]
      rw [ih']
  · intro σ α fp sh s n
    induction n generalizing s with
    | zero => rfl
    | succ n ih =>
      have ih' := ih (fp s).1
      simp only [MustComplete.new] at ih'
      simp only [streamTrace, MustComplete.poll_next, MustComplete.size_hint,
        MustComplete.new]
      rw [ih']

/-! Claim C8 -/

/-- C8: `AssertCompletes` is pure pass-through delegation through the
ordinary `Future`/`Stream` interface.  First conjunct: each single
`poll` returns exactly the inner operation's poll result, the only
state effect being the inner operation's own transition.  Second and
third conjuncts: the traces of any number of `poll` / `poll_next`
calls (the latter with `size_hint` observed at each step) are
identical to the unwrapped operation's, with the wrapper's state the
wrap of the inner state throughout.  Fourth conjunct: `size_hint`
passes through unchanged. -/
theorem assertcompletes_polls_as_inner :
    (∀ (σ α : Type) (fp : PollFn σ α) (a : σ),
      AssertCompletes.poll fp (AssertCompletes.new a) =
        (AssertCompletes.new (fp a).1, (fp a).2)) ∧
    (∀ (σ α : Type) (fp : PollFn σ α) (a : σ) (n : Nat),
      pollTrace (AssertCompletes.poll fp) (AssertCompletes.new a) n =
        ((pollTrace fp a n).1, AssertCompletes.new (pollTrace fp a n).2)) ∧
    (∀ (σ α : Type) (fp : PollNextFn σ α) (sh : SizeHintFn σ) (a : σ) (n : Nat),
      streamTrace (AssertCompletes.poll_next fp) (AssertCompletes.size_hint sh)
          (AssertCompletes.new a) n =
        ((streamTrace fp sh a n).1,
         AssertCompletes.new (streamTrace fp sh a n).2)) ∧
    (∀ (σ : Type) (sh : SizeHintFn σ) (a : σ),
      AssertCompletes.size_hint sh (AssertCompletes.new a) = sh a) := by
  refine ⟨fun σ α fp a => rfl, ?_, ?_, fun σ sh a => rfl⟩
  · intro σ α fp a n
    induction n generalizing a with
    | zero => rfl
    | succ n ih =>
      have ih' := ih (fp a).1
      simp only [AssertCompletes.new] at ih'
      simp only [pollTrace, AssertCompletes.poll, AssertCompletes.new]
      rw [ih']
  · intro σ α fp sh a n
    induction n generalizing a with
    | zero => rfl
    | succ n ih =>
      have ih' := ih (fp a).1
      simp only [AssertCompletes.new] at ih'
      simp only [streamTrace, AssertCompletes.poll_next,
        AssertCompletes.size_hint, AssertCompletes.new]
      rw [ih']

/-! Claim C9 -/

/-- C9: `waker_clone` only increments the reference count.  First
conjunct: the returned waker carries the very same pointer, so the clone
refers to the same `WakerInner`.  Second conjunct: at that pointer the
strong count goes up by one while the `woken` flag and the owning-thread
handle are untouched.  Third conjunct: every other allocation is
untouched.  Fourth conjunct: a `wake_by_ref` through the clone is a wake
of the same pair — it sets the original allocation's flag and unparks
exactly when that flag was clear. -/
theorem waker_clone_increments_refcount_only :
    (∀ (h : Heap) (p : Nat), (waker_clone h p).2 = p) ∧
    (∀ (h : Heap) (p : Nat) (a : ArcBox), List.get? h p = some a →
      List.get? (waker_clone h p).1 p =
        some { strong := a.strong + 1, value := a.value }) ∧
    (∀ (h : Heap) (p q : Nat), q ≠ p →
      List.get? (waker_clone h p).1 q = List.get? h q) ∧
    (∀ (h : Heap) (p : Nat) (a : ArcBox), List.get? h p = some a →
      heap_wake_by_ref (waker_clone h p).1 (waker_clone h p).2 =
        (List.set h p { strong := a.strong + 1,
                        value := { a.value with woken := true } },
         !a.value.woken)) := by
  refine ⟨fun h p => rfl, ?_, ?_, ?_⟩
  · intro h p a ha
    show List.get? (Heap.upd h p _) p = _
    rw [Heap.upd_eq h p _ a ha]
    exact List.get?_set_eq_of_lt _ (by simpa using read_lt h p a ha)
  · intro h p q hqp
    show List.get? (Heap.upd h p _) q = _
    unfold Heap.upd
    cases hg : List.get? h p with
    | none => rfl
    | some a => exact List.get?_set_ne _ _ (fun hpq => hqp hpq.symm)
  · intro h p a ha
    have hc : List.get? (waker_clone h p).1 p =
        some { strong := a.strong + 1, value := a.value } := by
      show List.get? (Heap.upd h p _) p = _
      rw [Heap.upd_eq h p _ a ha]
      exact List.get?_set_eq_of_lt _ (by simpa using read_lt h p a ha)
    rw [show (waker_clone h p).2 = p from rfl,
      heap_wake_by_ref_eq (waker_clone h p).1 p _ hc]
    simp only [waker_clone]
    rw [Heap.upd_eq h p _ a ha, List.set_set]

/-- Witness for C9 at a concrete heap: cloning the single allocation
bumps its strong count from 2 to 3, leaves the flag and thread handle
alone, and a wake through the clone sets that allocation's flag. -/
theorem waker_clone_increments_refcount_only_witness :
    (waker_clone [{ strong := 2, value := { woken := false, sleeping_thread := 3 } }] 0).2
      = 0 ∧
    List.get?
        (waker_clone
          [{ strong := 2, value := { woken := false, sleeping_thread := 3 } }] 0).1 0 =
      some { strong := 3, value := { woken := false, sleeping_thread := 3 } } ∧
    heap_wake_by_ref
        (waker_clone
          [{ strong := 2, value := { woken := false, sleeping_thread := 3 } }] 0).1
        (waker_clone
          [{ strong := 2, value := { woken := false, sleeping_thread := 3 } }] 0).2 =
      ([{ strong := 3, value := { woken := true, sleeping_thread := 3 } }], true) :=
  ⟨waker_clone_increments_refcount_only.1
      [{ strong := 2, value := { woken := false, sleeping_thread := 3 } }] 0,
   waker_clone_increments_refcount_only.2.1
      [{ strong := 2, value := { woken := false, sleeping_thread := 3 } }] 0
      { strong := 2, value := { woken := false, sleeping_thread := 3 } } rfl,
   by
    have := waker_clone_increments_refcount_only.2.2.2
      [{ strong := 2, value := { woken := false, sleeping_thread := 3 } }] 0
      { strong := 2, value := { woken := false, sleeping_thread := 3 } } rfl
    simpa using this⟩

/-! Claim C10 -/

/-- C10: wrap-then-extract is the identity for both adapter wrappers:
`AssertCompletes::new` followed by `into_inner`, and
`MustComplete::new` followed by `into_inner`, both return the inner
value unchanged. -/
theorem into_inner_after_new_is_id :
    (∀ (T : Type) (t : T),
      AssertCompletes.into_inner (AssertCompletes.new t) = t) ∧
    (∀ (T : Type) (t : T),
      MustComplete.into_inner (MustComplete.new t) = t) :=
  ⟨fun _ _ => rfl, fun _ _ => rfl⟩

end Completion

